import Mathlib

/-!
# Shallow embedding of the SDLGLTiles tile-map demo

This file models the camera / viewport / LOD core of `src/maingl.c`
(with the simpler `src/main.c` variant sharing the same drag-pan shape).
C `float` arithmetic is idealised as exact rational arithmetic (`ℚ`);
C `int` values are modelled as `ℤ` (or `ℕ` for the non-negative tile
index arithmetic), with C's truncating `(int)` cast on floats modelled
by `ctrunc` and C's truncating integer division by `Int.tdiv`.
-/

namespace SDLGLTiles

/-- `#define SCREEN_WIDTH 800` (initial window width, maingl.c line 31). -/
def SCREEN_WIDTH : ℤ := 800

/-- `#define SCREEN_HEIGHT 600` (initial window height). -/
def SCREEN_HEIGHT : ℤ := 600

/-- `#define MAP_WIDTH 1000` (tile map width in tiles). -/
def MAP_WIDTH : ℤ := 1000

/-- `#define MAP_HEIGHT 1000` (tile map height in tiles). -/
def MAP_HEIGHT : ℤ := 1000

/-- `#define TILE_WIDTH 32` (width of each tile in pixels). -/
def TILE_WIDTH : ℤ := 32

/-- `#define TILE_HEIGHT 32` (height of each tile in pixels). -/
def TILE_HEIGHT : ℤ := 32

/-- `#define LOD_PIXEL_THRESHOLD 8.0f`. -/
def LOD_PIXEL_THRESHOLD : ℚ := 8

/-- `#define MAX_ZOOM 16.0f`. -/
def MAX_ZOOM : ℚ := 16

/-- `#define MIN_ZOOM 0.001f` (idealised as the exact rational 1/1000). -/
def MIN_ZOOM : ℚ := 1/1000

/-- `#define ZOOM_STEP 1.1f` (idealised as the exact rational 11/10). -/
def ZOOM_STEP : ℚ := 11/10

/-- C's `(int)` cast applied to a real value: truncation toward zero. -/
def ctrunc (q : ℚ) : ℤ := if q < 0 then ⌈q⌉ else ⌊q⌋

/-- The mutable camera / input state of the event loop in `main`
(maingl.c lines 222-227): `offset_x`, `offset_y`, `zoom`
(C floats, modelled as `ℚ`), the `dragging` flag and the
`last_mouse_x` / `last_mouse_y` ints. -/
structure CamState where
  offset_x : ℚ
  offset_y : ℚ
  zoom : ℚ
  dragging : Bool
  last_mouse_x : ℤ
  last_mouse_y : ℤ
deriving DecidableEq

/-- The input events the event loop dispatches on (maingl.c lines
236-266).  `wheel` carries the wheel sign and the mouse position read
by `SDL_GetMouseState`; `resize` only touches the GL projection, not
the camera. -/
inductive Event where
  | buttonDownLeft (x y : ℤ)
  | buttonUpLeft
  | mouseMotion (x y : ℤ)
  | wheel (wheelY mx my : ℤ)
  | resize (w h : ℤ)
deriving DecidableEq

/-- The two sequential clamps applied right after the zoom multiply
(maingl.c lines 254-255):
`if (zoom < MIN_ZOOM) zoom = MIN_ZOOM; if (zoom > MAX_ZOOM) zoom = MAX_ZOOM;`. -/
def clampZoom (z : ℚ) : ℚ :=
  let z1 := if z < MIN_ZOOM then MIN_ZOOM else z
  if z1 > MAX_ZOOM then MAX_ZOOM else z1

/-- One dispatch of the inner `SDL_PollEvent` loop body
(maingl.c lines 236-266), restricted to the camera-relevant state. -/
def handleEvent (s : CamState) (e : Event) : CamState :=
  match e with
  | .buttonDownLeft x y =>
      { s with dragging := true, last_mouse_x := x, last_mouse_y := y }
  | .buttonUpLeft =>
      { s with dragging := false }
  | .mouseMotion x y =>
      if s.dragging then
        { s with
          offset_x := s.offset_x + ((x : ℚ) - (s.last_mouse_x : ℚ)) / s.zoom,
          offset_y := s.offset_y + ((y : ℚ) - (s.last_mouse_y : ℚ)) / s.zoom,
          last_mouse_x := x,
          last_mouse_y := y }
      else s
  | .wheel wheelY mx my =>
      let world_x := (mx : ℚ) / s.zoom - s.offset_x
      let world_y := (my : ℚ) / s.zoom - s.offset_y
      let z := clampZoom (s.zoom * (if wheelY > 0 then ZOOM_STEP else 1 / ZOOM_STEP))
      { s with
        zoom := z,
        offset_x := (mx : ℚ) / z - world_x,
        offset_y := (my : ℚ) / z - world_y }
  | .resize _ _ => s

/-- The initial camera state (maingl.c lines 222-227): the offset
centres the map on the initial window and zoom starts at 1.0. -/
def initState : CamState :=
  { offset_x := ((MAP_WIDTH * TILE_WIDTH - SCREEN_WIDTH : ℤ) : ℚ) / (-2),
    offset_y := ((MAP_HEIGHT * TILE_HEIGHT - SCREEN_HEIGHT : ℤ) : ℚ) / (-2),
    zoom := 1,
    dragging := false,
    last_mouse_x := 0,
    last_mouse_y := 0 }

/-- LOD selection (maingl.c lines 280-281):
`float tsz = TILE_WIDTH * zoom;`
`int lod = (tsz < LOD_PIXEL_THRESHOLD) ? (int)ceilf(LOD_PIXEL_THRESHOLD / tsz) : 1;`
(the cast of the non-negative `ceilf` result is the identity). -/
def lodOf (zoom : ℚ) : ℤ :=
  if (TILE_WIDTH : ℚ) * zoom < LOD_PIXEL_THRESHOLD then
    ⌈LOD_PIXEL_THRESHOLD / ((TILE_WIDTH : ℚ) * zoom)⌉
  else 1

/-- `int start_x = (min_x / lod) * lod;` (maingl.c lines 297-298).
C integer division truncates toward zero, hence `Int.tdiv`. -/
def alignStart (minv stride : ℤ) : ℤ := (Int.tdiv minv stride) * stride

/-- The per-frame visible-range data computed in the draw section of
`main` (maingl.c lines 280-298). -/
structure VisibleRange where
  lod : ℤ
  minX : ℤ
  minY : ℤ
  maxX : ℤ
  maxY : ℤ
  startX : ℤ
  startY : ℤ
deriving DecidableEq

/-- The visible-bounds / LOD computation of the frame loop
(maingl.c lines 280-298): raw bounds by `floorf` / `ceilf`, clamp of
the minima to ≥ 0 and the maxima to ≤ map size, then LOD alignment of
the start coordinates. -/
def resolve (offset_x offset_y zoom screen_w screen_h : ℚ) : VisibleRange :=
  let lod := lodOf zoom
  let minX0 : ℤ := ⌊-offset_x / (TILE_WIDTH : ℚ)⌋
  let minY0 : ℤ := ⌊-offset_y / (TILE_HEIGHT : ℚ)⌋
  let maxX0 : ℤ := ⌈(screen_w / zoom - offset_x) / (TILE_WIDTH : ℚ)⌉
  let maxY0 : ℤ := ⌈(screen_h / zoom - offset_y) / (TILE_HEIGHT : ℚ)⌉
  let minX := if minX0 < 0 then 0 else minX0
  let minY := if minY0 < 0 then 0 else minY0
  let maxX := if maxX0 > MAP_WIDTH then MAP_WIDTH else maxX0
  let maxY := if maxY0 > MAP_HEIGHT then MAP_HEIGHT else maxY0
  { lod := lod,
    minX := minX, minY := minY, maxX := maxX, maxY := maxY,
    startX := alignStart minX lod,
    startY := alignStart minY lod }

/-- The sequence of loop-counter values of
`for (int v = start; v < maxv; v += stride)` (maingl.c lines 301-302),
driven by explicit fuel; `drawCoords` supplies fuel that is provably
sufficient when `stride ≥ 1`. -/
def strideList (stride : ℤ) : ℕ → ℤ → ℤ → List ℤ
  | 0, _, _ => []
  | fuel + 1, v, maxv =>
      if v < maxv then v :: strideList stride fuel (v + stride) maxv else []

/-- The x-coordinates visited by the inner draw loop. -/
def drawXs (r : VisibleRange) : List ℤ :=
  strideList r.lod (r.maxX - r.startX).toNat r.startX r.maxX

/-- The y-coordinates visited by the outer draw loop. -/
def drawYs (r : VisibleRange) : List ℤ :=
  strideList r.lod (r.maxY - r.startY).toNat r.startY r.maxY

/-- Hover-tile computation (maingl.c lines 313-314):
`int tile_x = (int)((mx / zoom - offset_x) / TILE_WIDTH);` etc. —
note the truncating `(int)` cast, not `floorf`. -/
def hoverTile (offset_x offset_y zoom : ℚ) (mx my : ℤ) : Option (ℤ × ℤ) :=
  let tile_x := ctrunc (((mx : ℚ) / zoom - offset_x) / (TILE_WIDTH : ℚ))
  let tile_y := ctrunc (((my : ℚ) / zoom - offset_y) / (TILE_HEIGHT : ℚ))
  if 0 ≤ tile_x ∧ tile_x < MAP_WIDTH ∧ 0 ≤ tile_y ∧ tile_y < MAP_HEIGHT then
    some (tile_x, tile_y)
  else none

/-- The spec's description of the hover computation (§4.6: "the same
inverse transform as step 2 of 4.5", i.e. floor-based), for comparison
with the code's `hoverTile`. -/
def hoverTileFloorSpec (offset_x offset_y zoom : ℚ) (mx my : ℤ) : Option (ℤ × ℤ) :=
  let tile_x := ⌊((mx : ℚ) / zoom - offset_x) / (TILE_WIDTH : ℚ)⌋
  let tile_y := ⌊((my : ℚ) / zoom - offset_y) / (TILE_HEIGHT : ℚ)⌋
  if 0 ≤ tile_x ∧ tile_x < MAP_WIDTH ∧ 0 ≤ tile_y ∧ tile_y < MAP_HEIGHT then
    some (tile_x, tile_y)
  else none

/-- The index decomposition in `draw_tile` (maingl.c lines 120-127):
shift path when `use_shift`, division/modulo path otherwise.  Valid
tile indices are non-negative C ints, modelled as `ℕ`. -/
def draw_tile_decompose (use_shift : Bool) (cols shift_bits tile_index : ℕ) : ℕ × ℕ :=
  if use_shift then
    (tile_index &&& (cols - 1), tile_index >>> shift_bits)
  else
    (tile_index % cols, tile_index / cols)

/-- The `while ((1 << shift) < cols) shift++;` loop of the `shift_bits`
computation (maingl.c lines 211-213), with explicit fuel. -/
def shiftLoop (cols : ℕ) : ℕ → ℕ → ℕ
  | 0, shift => shift
  | fuel + 1, shift =>
      if (1 <<< shift) < cols then shiftLoop cols fuel (shift + 1) else shift

/-- `tileset.shift_bits` as computed in `main` (maingl.c lines 210-214);
fuel `cols` is enough since the loop stops before `shift` reaches `cols`. -/
def shiftBitsOf (cols : ℕ) : ℕ := shiftLoop cols cols 0

/-- The grid geometry computed by `load_tileset` (maingl.c lines 87-88):
`cols = surface->w / tile_width; rows = surface->h / tile_height;`.
All operands are non-negative C ints. -/
def load_tileset_grid (surf_w surf_h tile_w tile_h : ℕ) : ℕ × ℕ :=
  (surf_w / tile_w, surf_h / tile_h)

/-- `load_tileset`'s success result (maingl.c lines 68-98): it returns 0
exactly when `IMG_Load` fails; no other input is rejected. -/
def load_tileset_result (decode_ok : Bool) : Bool := decode_ok

/-- C's `%` with a run-time check for the undefined case: `rand() % m`
in `fill_random_tilemap` (maingl.c line 104) is undefined when `m = 0`. -/
def cMod (a m : ℕ) : Option ℕ := if m = 0 then none else some (a % m)

/-- One cell assignment of `fill_random_tilemap` (maingl.c lines 101-107):
`map->tiles[...] = rand() % max_tile_index;`, `none` marking the
undefined-behaviour case `max_tile_index = 0`. -/
def fill_cell (rand_val max_tile_index : ℕ) : Option ℕ := cMod rand_val max_tile_index

/-- The bounds property the spec claims for the resolved visible range
(§8: "bounds are always within [0, grid_width] × [0, grid_height], and
min ≤ max on each axis"). -/
def resolveBoundsClaim (offset_x offset_y zoom screen_w screen_h : ℚ) : Prop :=
  let r := resolve offset_x offset_y zoom screen_w screen_h
  0 ≤ r.minX ∧ r.minX ≤ r.maxX ∧ r.maxX ≤ MAP_WIDTH ∧
  0 ≤ r.minY ∧ r.minY ≤ r.maxY ∧ r.maxY ≤ MAP_HEIGHT

/-- The bounds property the code actually guarantees: the minima are
≥ 0, the maxima are ≤ the grid dimensions, and min ≤ max on an axis
whenever the raw (unclamped) range on that axis meets [0, dimension];
panned entirely past an edge, the clamped pair can be inverted (and the
strict-bound draw loop then visits nothing). -/
def resolveBoundsOk (offset_x offset_y zoom screen_w screen_h : ℚ) : Prop :=
  let r := resolve offset_x offset_y zoom screen_w screen_h
  0 ≤ r.minX ∧ r.maxX ≤ MAP_WIDTH ∧ 0 ≤ r.minY ∧ r.maxY ≤ MAP_HEIGHT ∧
  ⌊-offset_x / (TILE_WIDTH : ℚ)⌋ ≤ ⌈(screen_w / zoom - offset_x) / (TILE_WIDTH : ℚ)⌉ ∧
  ⌊-offset_y / (TILE_HEIGHT : ℚ)⌋ ≤ ⌈(screen_h / zoom - offset_y) / (TILE_HEIGHT : ℚ)⌉ ∧
  (⌊-offset_x / (TILE_WIDTH : ℚ)⌋ ≤ MAP_WIDTH →
    0 ≤ ⌈(screen_w / zoom - offset_x) / (TILE_WIDTH : ℚ)⌉ → r.minX ≤ r.maxX) ∧
  (⌊-offset_y / (TILE_HEIGHT : ℚ)⌋ ≤ MAP_HEIGHT →
    0 ≤ ⌈(screen_h / zoom - offset_y) / (TILE_HEIGHT : ℚ)⌉ → r.minY ≤ r.maxY)

/-! ## Helper lemmas -/

theorem zoom_pos_of_min (z : ℚ) (h : MIN_ZOOM ≤ z) : 0 < z := by
  have : (0 : ℚ) < MIN_ZOOM := by norm_num [MIN_ZOOM]
  linarith

theorem clampZoom_mem (z : ℚ) :
    MIN_ZOOM ≤ clampZoom z ∧ clampZoom z ≤ MAX_ZOOM := by
  simp only [clampZoom, MIN_ZOOM, MAX_ZOOM]
  split_ifs <;> constructor <;> norm_num <;> linarith

theorem handleEvent_zoom_range (s : CamState) (e : Event)
    (h : MIN_ZOOM ≤ s.zoom ∧ s.zoom ≤ MAX_ZOOM) :
    MIN_ZOOM ≤ (handleEvent s e).zoom ∧ (handleEvent s e).zoom ≤ MAX_ZOOM := by
  cases e with
  | buttonDownLeft x y => exact h
  | buttonUpLeft => exact h
  | mouseMotion x y =>
      simp only [handleEvent]
      split_ifs <;> exact h
  | wheel wheelY mx my => exact clampZoom_mem _
  | resize w hh => exact h

theorem foldl_zoom_range (events : List Event) :
    ∀ s : CamState, MIN_ZOOM ≤ s.zoom ∧ s.zoom ≤ MAX_ZOOM →
      MIN_ZOOM ≤ (events.foldl handleEvent s).zoom ∧
      (events.foldl handleEvent s).zoom ≤ MAX_ZOOM := by
  induction events with
  | nil => intro s h; simpa using h
  | cons e es ih =>
      intro s h
      simpa [List.foldl] using ih _ (handleEvent_zoom_range s e h)

theorem ctrunc_of_nonneg (q : ℚ) (h : 0 ≤ q) : ctrunc q = ⌊q⌋ :=
  if_neg (not_lt.mpr h)

theorem one_le_lodOf (z : ℚ) (h : MIN_ZOOM ≤ z) : 1 ≤ lodOf z := by
  have hz : 0 < z := zoom_pos_of_min z h
  unfold lodOf
  split_ifs with hlt
  · have hpos : (0 : ℚ) < LOD_PIXEL_THRESHOLD / ((TILE_WIDTH : ℚ) * z) := by
      apply div_pos
      · norm_num [LOD_PIXEL_THRESHOLD]
      · have : (0 : ℚ) < (TILE_WIDTH : ℚ) := by norm_num [TILE_WIDTH]
        positivity
    exact Int.ceil_pos.mpr hpos
  · exact le_refl 1

theorem alignStart_nonneg (m s : ℤ) (hm : 0 ≤ m) (hs : 1 ≤ s) :
    0 ≤ alignStart m s := by
  unfold alignStart
  rw [Int.tdiv_eq_ediv hm (by omega)]
  exact mul_nonneg (Int.ediv_nonneg hm (by omega)) (by omega)

theorem strideList_mem (stride : ℤ) (hs : 0 ≤ stride) :
    ∀ (fuel : ℕ) (v maxv x : ℤ), x ∈ strideList stride fuel v maxv →
      v ≤ x ∧ x < maxv := by
  intro fuel
  induction fuel with
  | zero => intro v maxv x hx; simp [strideList] at hx
  | succ f ih =>
      intro v maxv x hx
      rw [strideList] at hx
      by_cases h : v < maxv
      · rw [if_pos h] at hx
        rcases List.mem_cons.mp hx with rfl | hx'
        · exact ⟨le_refl x, h⟩
        · have h2 := ih (v + stride) maxv x hx'
          exact ⟨by omega, h2.2⟩
      · rw [if_neg h] at hx
        simp at hx

theorem shiftLoop_pow (k : ℕ) :
    ∀ (fuel shift : ℕ), shift ≤ k → k ≤ shift + fuel →
      shiftLoop (2 ^ k) fuel shift = k := by
  intro fuel
  induction fuel with
  | zero =>
      intro shift h1 h2
      simp only [shiftLoop]
      omega
  | succ f ih =>
      intro shift h1 h2
      rw [shiftLoop]
      by_cases h : (1 <<< shift) < 2 ^ k
      · rw [if_pos h]
        have hs : shift < k := by
          have hpow : 2 ^ shift < 2 ^ k := by
            simpa [Nat.one_shiftLeft] using h
          exact (Nat.pow_lt_pow_iff_right (by norm_num)).mp hpow
        exact ih (shift + 1) hs (by omega)
      · rw [if_neg h]
        have hs : ¬ shift < k := by
          intro hlt
          exact h (by
            have := (Nat.pow_lt_pow_iff_right (a := 2) (by norm_num)).mpr hlt
            simpa [Nat.one_shiftLeft] using this)
        omega

theorem shiftBitsOf_pow (k : ℕ) : shiftBitsOf (2 ^ k) = k := by
  have hk : k < 2 ^ k := Nat.lt_two_pow k
  exact shiftLoop_pow k (2 ^ k) 0 (Nat.zero_le k) (by omega)

/-! ## Claim theorems -/

/-- C1: anchored zoom.  For every camera state with
`MIN_ZOOM ≤ zoom ≤ MAX_ZOOM`, every pointer position and either wheel
direction, the world point under the pointer before the wheel event,
`p / zoom − offset`, is unchanged by the zoom update (multiply by
`ZOOM_STEP` or its reciprocal, then clamp), including when the new zoom
saturates at a bound, because the offset is recomputed from the clamped
zoom. -/
theorem anchored_zoom_holds (s : CamState) (wheelY mx my : ℤ)
    (hmin : MIN_ZOOM ≤ s.zoom) (hmax : s.zoom ≤ MAX_ZOOM) :
    (mx : ℚ) / (handleEvent s (.wheel wheelY mx my)).zoom
        - (handleEvent s (.wheel wheelY mx my)).offset_x
      = (mx : ℚ) / s.zoom - s.offset_x ∧
    (my : ℚ) / (handleEvent s (.wheel wheelY mx my)).zoom
        - (handleEvent s (.wheel wheelY mx my)).offset_y
      = (my : ℚ) / s.zoom - s.offset_y := by
  constructor <;> simp [handleEvent] <;> ring

/-- Witness for C1 at the spec's literal scenario: pointer (400, 300),
one zoom-in step from the initial state (zoom 1.0 → 1.1). -/
theorem anchored_zoom_holds_witness :
    (MIN_ZOOM ≤ initState.zoom ∧ initState.zoom ≤ MAX_ZOOM) ∧
    ((400 : ℤ) : ℚ) / (handleEvent initState (.wheel 1 400 300)).zoom
        - (handleEvent initState (.wheel 1 400 300)).offset_x
      = ((400 : ℤ) : ℚ) / initState.zoom - initState.offset_x ∧
    ((300 : ℤ) : ℚ) / (handleEvent initState (.wheel 1 400 300)).zoom
        - (handleEvent initState (.wheel 1 400 300)).offset_y
      = ((300 : ℤ) : ℚ) / initState.zoom - initState.offset_y :=
  ⟨⟨by norm_num [initState, MIN_ZOOM], by norm_num [initState, MAX_ZOOM]⟩,
   anchored_zoom_holds initState 1 400 300
     (by norm_num [initState, MIN_ZOOM]) (by norm_num [initState, MAX_ZOOM])⟩

/-- C2: for every `tile_index` in `[0, cols*rows)` with `cols = 2^k`,
the shift path of `draw_tile` (`tile_index AND (cols−1)`,
`tile_index >> shift_bits`) equals the division/modulo path, and the
`shift_bits` loop of `main` computes exactly `k`. -/
theorem shift_decomposition_eq_divmod (cols rows k tile_index : ℕ)
    (hc : cols = 2 ^ k) (hidx : tile_index < cols * rows) :
    draw_tile_decompose true cols k tile_index
      = draw_tile_decompose false cols k tile_index ∧
    shiftBitsOf cols = k := by
  subst hc
  refine ⟨?_, shiftBitsOf_pow k⟩
  simp [draw_tile_decompose, Nat.and_pow_two_sub_one_eq_mod,
    Nat.shiftRight_eq_div_pow]

/-- Witness for C2: cols = 4 = 2², rows = 3, tile_index = 7. -/
theorem shift_decomposition_eq_divmod_witness :
    ((4 : ℕ) = 2 ^ 2 ∧ (7 : ℕ) < 4 * 3) ∧
    (draw_tile_decompose true 4 2 7 = draw_tile_decompose false 4 2 7 ∧
     shiftBitsOf 4 = 2) :=
  ⟨⟨by decide, by decide⟩,
   shift_decomposition_eq_divmod 4 3 2 7 (by decide) (by decide)⟩

/-- C3: zoom-range invariant.  Starting from the initial zoom 1.0,
after any sequence of input events (drags, wheel events, resizes) the
camera zoom stays within `[MIN_ZOOM, MAX_ZOOM]`. -/
theorem zoom_range_invariant (events : List Event) :
    MIN_ZOOM ≤ (events.foldl handleEvent initState).zoom ∧
    (events.foldl handleEvent initState).zoom ≤ MAX_ZOOM := by
  apply foldl_zoom_range
  constructor <;> norm_num [initState, MIN_ZOOM, MAX_ZOOM]

/-- C5: LOD stride selection.  For every zoom in
`[MIN_ZOOM, MAX_ZOOM]`, the stride is `⌈threshold / (tile_width·zoom)⌉`
when the on-screen tile size `tile_width·zoom` is below the threshold
and 1 otherwise; it is always ≥ 1; and at zoom 1/10 (on-screen size
16/5 = 3.2) it is 3. -/
theorem lod_stride_correct (zoom : ℚ)
    (hmin : MIN_ZOOM ≤ zoom) (hmax : zoom ≤ MAX_ZOOM) :
    ((TILE_WIDTH : ℚ) * zoom < LOD_PIXEL_THRESHOLD →
      lodOf zoom = ⌈LOD_PIXEL_THRESHOLD / ((TILE_WIDTH : ℚ) * zoom)⌉) ∧
    (LOD_PIXEL_THRESHOLD ≤ (TILE_WIDTH : ℚ) * zoom → lodOf zoom = 1) ∧
    1 ≤ lodOf zoom ∧
    lodOf (1/10) = 3 := by
  refine ⟨?_, ?_, one_le_lodOf zoom hmin, ?_⟩
  · intro h
    unfold lodOf
    rw [if_pos h]
  · intro h
    unfold lodOf
    rw [if_neg (not_lt.mpr h)]
  · unfold lodOf
    rw [if_pos (by norm_num [TILE_WIDTH, LOD_PIXEL_THRESHOLD])]
    rw [show LOD_PIXEL_THRESHOLD / ((TILE_WIDTH : ℚ) * (1/10)) = 5/2 by
      norm_num [TILE_WIDTH, LOD_PIXEL_THRESHOLD]]
    rw [Int.ceil_eq_iff] <;> norm_num

/-- Witness for C5 at zoom 1/10. -/
theorem lod_stride_correct_witness :
    (MIN_ZOOM ≤ (1/10 : ℚ) ∧ (1/10 : ℚ) ≤ MAX_ZOOM) ∧
    (((TILE_WIDTH : ℚ) * (1/10) < LOD_PIXEL_THRESHOLD →
        lodOf (1/10) = ⌈LOD_PIXEL_THRESHOLD / ((TILE_WIDTH : ℚ) * (1/10))⌉) ∧
      (LOD_PIXEL_THRESHOLD ≤ (TILE_WIDTH : ℚ) * (1/10) → lodOf (1/10) = 1) ∧
      1 ≤ lodOf (1/10) ∧
      lodOf (1/10) = 3) :=
  ⟨⟨by norm_num [MIN_ZOOM], by norm_num [MAX_ZOOM]⟩,
   lod_stride_correct (1/10) (by norm_num [MIN_ZOOM]) (by norm_num [MAX_ZOOM])⟩

/-- C6: start-coordinate alignment.  For every clamped minimum ≥ 0 and
every stride ≥ 1, `start = (min / stride) * stride` (C truncating
division) is a multiple of the stride, is ≤ the minimum, and exceeds
`min − stride`. -/
theorem start_alignment (min_x stride : ℤ) (hm : 0 ≤ min_x) (hs : 1 ≤ stride) :
    alignStart min_x stride % stride = 0 ∧
    alignStart min_x stride ≤ min_x ∧
    min_x - stride < alignStart min_x stride := by
  unfold alignStart
  rw [Int.tdiv_eq_ediv hm (by omega)]
  have h1 := Int.ediv_add_emod min_x stride
  have h2 := Int.emod_nonneg min_x (show stride ≠ 0 by omega)
  have h3 := Int.emod_lt_of_pos min_x (show 0 < stride by omega)
  have hcomm : min_x / stride * stride = stride * (min_x / stride) := mul_comm _ _
  refine ⟨Int.mul_emod_left _ _, ?_, ?_⟩
  · rw [hcomm]; linarith
  · rw [hcomm]; linarith

/-- Witness for C6 at min_x = 7, stride = 3 (start = 6). -/
theorem start_alignment_witness :
    ((0 : ℤ) ≤ 7 ∧ (1 : ℤ) ≤ 3) ∧
    (alignStart 7 3 % 3 = 0 ∧ alignStart 7 3 ≤ 7 ∧ (7 : ℤ) - 3 < alignStart 7 3) :=
  ⟨⟨by decide, by decide⟩, start_alignment 7 3 (by decide) (by decide)⟩

/-- C8: drag-pan update rule.  While dragging, a mouse-motion event to
`(x, y)` adds exactly `(pointer − last_pointer) / zoom` to the offset on
each axis, sets `last_pointer` to the current pointer, and leaves zoom
and the dragging flag unchanged; no bound is imposed on the resulting
offset. -/
theorem drag_pan_update (s : CamState) (x y : ℤ) (hdrag : s.dragging = true) :
    (handleEvent s (.mouseMotion x y)).offset_x
      = s.offset_x + ((x : ℚ) - (s.last_mouse_x : ℚ)) / s.zoom ∧
    (handleEvent s (.mouseMotion x y)).offset_y
      = s.offset_y + ((y : ℚ) - (s.last_mouse_y : ℚ)) / s.zoom ∧
    (handleEvent s (.mouseMotion x y)).last_mouse_x = x ∧
    (handleEvent s (.mouseMotion x y)).last_mouse_y = y ∧
    (handleEvent s (.mouseMotion x y)).zoom = s.zoom ∧
    (handleEvent s (.mouseMotion x y)).dragging = true := by
  simp [handleEvent, hdrag]

/-- Witness for C8 at a concrete dragging state. -/
theorem drag_pan_update_witness :
    (CamState.dragging ⟨5, 6, 2, true, 10, 20⟩ = true) ∧
    ((handleEvent ⟨5, 6, 2, true, 10, 20⟩ (.mouseMotion 14 26)).offset_x
        = (5 : ℚ) + (((14 : ℤ) : ℚ) - ((10 : ℤ) : ℚ)) / 2 ∧
      (handleEvent ⟨5, 6, 2, true, 10, 20⟩ (.mouseMotion 14 26)).offset_y
        = (6 : ℚ) + (((26 : ℤ) : ℚ) - ((20 : ℤ) : ℚ)) / 2 ∧
      (handleEvent ⟨5, 6, 2, true, 10, 20⟩ (.mouseMotion 14 26)).last_mouse_x = 14 ∧
      (handleEvent ⟨5, 6, 2, true, 10, 20⟩ (.mouseMotion 14 26)).last_mouse_y = 26 ∧
      (handleEvent ⟨5, 6, 2, true, 10, 20⟩ (.mouseMotion 14 26)).zoom = (2 : ℚ) ∧
      (handleEvent ⟨5, 6, 2, true, 10, 20⟩ (.mouseMotion 14 26)).dragging = true) :=
  ⟨rfl, drag_pan_update ⟨5, 6, 2, true, 10, 20⟩ 14 26 rfl⟩

/-- C9: the claim says a zero-sized tile grid is rejected fatally at
startup before the random fill; the code does not do this.  With a
16×16 atlas image and 32×32 tiles, `load_tileset` succeeds (its only
failure path is `IMG_Load`), computes a 0×0 grid, and `main` then calls
`fill_random_tilemap` with `max_tile_index = cols*rows = 0`, making
every cell assignment evaluate `rand() % 0` — undefined behaviour,
modelled as `none`. -/
theorem degenerate_atlas_not_rejected :
    load_tileset_result true = true ∧
    load_tileset_grid 16 16 32 32 = (0, 0) ∧
    ∀ rand_val : ℕ,
      fill_cell rand_val
        ((load_tileset_grid 16 16 32 32).1 * (load_tileset_grid 16 16 32 32).2)
        = none := by
  exact ⟨rfl, rfl, fun _ => rfl⟩

theorem clamp_pair (lo hi dim : ℤ) (hdim : 0 ≤ dim) (hlohi : lo ≤ hi) :
    0 ≤ (if lo < 0 then 0 else lo) ∧
    (if hi > dim then dim else hi) ≤ dim ∧
    (lo ≤ dim → 0 ≤ hi → (if lo < 0 then 0 else lo) ≤ (if hi > dim then dim else hi)) := by
  refine ⟨?_, ?_, fun h1 h2 => ?_⟩ <;> split_ifs <;> omega

theorem resolve_counterexample_eval :
    resolve (-64000) (-8) 1 800 600
      = ⟨1, 2000, 0, 1000, 19, 2000, 0⟩ := by
  unfold resolve lodOf alignStart
  norm_num [TILE_WIDTH, TILE_HEIGHT, LOD_PIXEL_THRESHOLD, MAP_WIDTH, MAP_HEIGHT,
    Int.tdiv]

/-- C4 counterexample: with the camera panned far to the right
(offset (−64000, −8), zoom 1, screen 800×600) the clamped bounds are
`min_x = 2000 > max_x = 1000`, so the claimed
`0 ≤ min_x ≤ max_x ≤ grid_width` fails. -/
theorem viewport_bounds_counterexample :
    ¬ resolveBoundsClaim (-64000) (-8) 1 800 600 := by
  simp only [resolveBoundsClaim]
  rw [resolve_counterexample_eval]
  decide

/-- C4 (amended): for every offset, every zoom in
`[MIN_ZOOM, MAX_ZOOM]` and every positive screen size, the clamped
minima are ≥ 0 and the clamped maxima are ≤ the grid dimensions, the
raw bounds always satisfy raw-min ≤ raw-max, and `min ≤ max` holds on
an axis whenever the raw range meets `[0, grid dimension]`; when the
camera is panned entirely past an edge the clamped pair may be
inverted (the draw loop then iterates over nothing). -/
theorem viewport_bounds_amended (offset_x offset_y zoom screen_w screen_h : ℚ)
    (hzmin : MIN_ZOOM ≤ zoom) (hzmax : zoom ≤ MAX_ZOOM)
    (hsw : 0 < screen_w) (hsh : 0 < screen_h) :
    resolveBoundsOk offset_x offset_y zoom screen_w screen_h := by
  have hz : 0 < zoom := zoom_pos_of_min zoom hzmin
  have htw : (0 : ℚ) < (TILE_WIDTH : ℚ) := by norm_num [TILE_WIDTH]
  have hth : (0 : ℚ) < (TILE_HEIGHT : ℚ) := by norm_num [TILE_HEIGHT]
  have hx : ⌊-offset_x / (TILE_WIDTH : ℚ)⌋
      ≤ ⌈(screen_w / zoom - offset_x) / (TILE_WIDTH : ℚ)⌉ := by
    refine le_trans (Int.floor_mono ?_) (Int.floor_le_ceil _)
    have hswz : 0 < screen_w / zoom := div_pos hsw hz
    exact (div_le_div_right htw).mpr (by linarith)
  have hy : ⌊-offset_y / (TILE_HEIGHT : ℚ)⌋
      ≤ ⌈(screen_h / zoom - offset_y) / (TILE_HEIGHT : ℚ)⌉ := by
    refine le_trans (Int.floor_mono ?_) (Int.floor_le_ceil _)
    have hshz : 0 < screen_h / zoom := div_pos hsh hz
    exact (div_le_div_right hth).mpr (by linarith)
  have cx := clamp_pair _ _ MAP_WIDTH (by norm_num [MAP_WIDTH]) hx
  have cy := clamp_pair _ _ MAP_HEIGHT (by norm_num [MAP_HEIGHT]) hy
  simp only [resolveBoundsOk, resolve]
  exact ⟨cx.1, cx.2.1, cy.1, cy.2.1, hx, hy, cx.2.2, cy.2.2⟩

/-- Witness for C4's amended theorem at offset (0,0), zoom 1,
screen 800×600. -/
theorem viewport_bounds_amended_witness :
    (MIN_ZOOM ≤ (1 : ℚ) ∧ (1 : ℚ) ≤ MAX_ZOOM ∧ (0 : ℚ) < 800 ∧ (0 : ℚ) < 600) ∧
    resolveBoundsOk 0 0 1 800 600 :=
  ⟨⟨by norm_num [MIN_ZOOM], by norm_num [MAX_ZOOM], by norm_num, by norm_num⟩,
   viewport_bounds_amended 0 0 1 800 600
     (by norm_num [MIN_ZOOM]) (by norm_num [MAX_ZOOM]) (by norm_num) (by norm_num)⟩

theorem hover_counterexample_eval : hoverTile 16 (-16) 1 0 0 = some (0, 0) := by
  unfold hoverTile ctrunc
  norm_num [TILE_WIDTH, TILE_HEIGHT, MAP_WIDTH, MAP_HEIGHT, Int.ceil_neg]

theorem hover_floor_eval : hoverTileFloorSpec 16 (-16) 1 0 0 = none := by
  unfold hoverTileFloorSpec
  norm_num [TILE_WIDTH, TILE_HEIGHT, MAP_WIDTH, MAP_HEIGHT]

/-- C7 counterexample: pointer at screen (0,0) with offset (16, −16)
and zoom 1 puts the pointer half a tile left of the grid
(world x-tile −1/2).  The floor-based rule of the claim yields tile x
−1, hence no highlight; the code's truncating cast yields 0, which is
in bounds, and a highlight at tile (0,0) is exposed. -/
theorem hover_floor_counterexample :
    hoverTile 16 (-16) 1 0 0 = some (0, 0) ∧
    hoverTileFloorSpec 16 (-16) 1 0 0 = none ∧
    hoverTile 16 (-16) 1 0 0 ≠ hoverTileFloorSpec 16 (-16) 1 0 0 := by
  refine ⟨hover_counterexample_eval, hover_floor_eval, ?_⟩
  rw [hover_counterexample_eval, hover_floor_eval]
  simp

/-- C7 (amended): the hovered tile is computed with C's truncation
toward zero of the inverse transform (not floor), and a highlight is
exposed iff the truncated coordinate is within the grid.  Whenever the
floor-based coordinate of the claim is itself within the grid the two
computations agree exactly (truncation equals floor on non-negative
values); they can differ only for pointers less than one tile above or
left of the grid, where the code highlights row/column 0 and the
floor-based rule exposes nothing. -/
theorem hover_matches_floor_when_exposed (offset_x offset_y zoom : ℚ) (mx my : ℤ)
    (h : hoverTileFloorSpec offset_x offset_y zoom mx my ≠ none) :
    hoverTile offset_x offset_y zoom mx my
      = hoverTileFloorSpec offset_x offset_y zoom mx my := by
  simp only [hoverTileFloorSpec] at h ⊢
  simp only [hoverTile]
  by_cases hc : 0 ≤ ⌊((mx : ℚ) / zoom - offset_x) / (TILE_WIDTH : ℚ)⌋ ∧
      ⌊((mx : ℚ) / zoom - offset_x) / (TILE_WIDTH : ℚ)⌋ < MAP_WIDTH ∧
      0 ≤ ⌊((my : ℚ) / zoom - offset_y) / (TILE_HEIGHT : ℚ)⌋ ∧
      ⌊((my : ℚ) / zoom - offset_y) / (TILE_HEIGHT : ℚ)⌋ < MAP_HEIGHT
  · have hx0 : (0 : ℚ) ≤ ((mx : ℚ) / zoom - offset_x) / (TILE_WIDTH : ℚ) :=
      Int.floor_nonneg.mp hc.1
    have hy0 : (0 : ℚ) ≤ ((my : ℚ) / zoom - offset_y) / (TILE_HEIGHT : ℚ) :=
      Int.floor_nonneg.mp hc.2.2.1
    rw [ctrunc_of_nonneg _ hx0, ctrunc_of_nonneg _ hy0]
  · rw [if_neg hc] at h
    exact absurd rfl h

/-- Witness for C7's amended theorem: pointer (40, 40), offset (0,0),
zoom 1 — the floor-based hover is tile (1,1), and the code agrees. -/
theorem hover_matches_floor_witness :
    hoverTileFloorSpec 0 0 1 40 40 ≠ none ∧
    hoverTile 0 0 1 40 40 = hoverTileFloorSpec 0 0 1 40 40 :=
  ⟨by
     unfold hoverTileFloorSpec
     norm_num [TILE_WIDTH, TILE_HEIGHT, MAP_WIDTH, MAP_HEIGHT]
     simp,
   hover_matches_floor_when_exposed 0 0 1 40 40 (by
     unfold hoverTileFloorSpec
     norm_num [TILE_WIDTH, TILE_HEIGHT, MAP_WIDTH, MAP_HEIGHT]
     simp)⟩

theorem resolve_fields (offset_x offset_y zoom screen_w screen_h : ℚ) :
    (resolve offset_x offset_y zoom screen_w screen_h).lod = lodOf zoom ∧
    (resolve offset_x offset_y zoom screen_w screen_h).startX
      = alignStart (resolve offset_x offset_y zoom screen_w screen_h).minX (lodOf zoom) ∧
    (resolve offset_x offset_y zoom screen_w screen_h).startY
      = alignStart (resolve offset_x offset_y zoom screen_w screen_h).minY (lodOf zoom) ∧
    0 ≤ (resolve offset_x offset_y zoom screen_w screen_h).minX ∧
    (resolve offset_x offset_y zoom screen_w screen_h).maxX ≤ MAP_WIDTH ∧
    0 ≤ (resolve offset_x offset_y zoom screen_w screen_h).minY ∧
    (resolve offset_x offset_y zoom screen_w screen_h).maxY ≤ MAP_HEIGHT := by
  unfold resolve
  refine ⟨rfl, rfl, rfl, ?_, ?_, ?_, ?_⟩ <;> dsimp only <;> split_ifs <;> omega

/-- C10: every tile-grid read of the draw loop is in bounds — for every
camera state with zoom in `[MIN_ZOOM, MAX_ZOOM]` and every screen size,
each `x` visited by the inner loop and each `y` visited by the outer
loop satisfy `0 ≤ x < MAP_WIDTH` and `0 ≤ y < MAP_HEIGHT`, so each
accessed flat index `y·MAP_WIDTH + x` is within the tile array;
when the clamped minimum exceeds the clamped maximum the loops visit
nothing, so the statement holds vacuously. -/
theorem draw_loop_in_bounds (offset_x offset_y zoom screen_w screen_h : ℚ)
    (hzmin : MIN_ZOOM ≤ zoom) (hzmax : zoom ≤ MAX_ZOOM) :
    ∀ x ∈ drawXs (resolve offset_x offset_y zoom screen_w screen_h),
    ∀ y ∈ drawYs (resolve offset_x offset_y zoom screen_w screen_h),
      (0 ≤ x ∧ x < MAP_WIDTH ∧ 0 ≤ y ∧ y < MAP_HEIGHT) ∧
      0 ≤ y * MAP_WIDTH + x ∧ y * MAP_WIDTH + x < MAP_WIDTH * MAP_HEIGHT := by
  intro x hx y hy
  obtain ⟨hlod, hsx, hsy, hminx, hmaxx, hminy, hmaxy⟩ :=
    resolve_fields offset_x offset_y zoom screen_w screen_h
  have hlod1 : 1 ≤ lodOf zoom := one_le_lodOf zoom hzmin
  unfold drawXs at hx
  unfold drawYs at hy
  rw [hlod] at hx hy
  have hxb := strideList_mem (lodOf zoom) (by omega) _ _ _ _ hx
  have hyb := strideList_mem (lodOf zoom) (by omega) _ _ _ _ hy
  have hsx0 : 0 ≤ (resolve offset_x offset_y zoom screen_w screen_h).startX := by
    rw [hsx]; exact alignStart_nonneg _ _ hminx hlod1
  have hsy0 : 0 ≤ (resolve offset_x offset_y zoom screen_w screen_h).startY := by
    rw [hsy]; exact alignStart_nonneg _ _ hminy hlod1
  have hx1 : 0 ≤ x := le_trans hsx0 hxb.1
  have hy1 : 0 ≤ y := le_trans hsy0 hyb.1
  have hx2 : x < MAP_WIDTH := lt_of_lt_of_le hxb.2 hmaxx
  have hy2 : y < MAP_HEIGHT := lt_of_lt_of_le hyb.2 hmaxy
  refine ⟨⟨hx1, hx2, hy1, hy2⟩, ?_, ?_⟩ <;>
    simp only [MAP_WIDTH, MAP_HEIGHT] at * <;> omega

theorem resolve_witness_eval :
    resolve 0 (-8) 1 800 600 = ⟨1, 0, 0, 25, 19, 0, 0⟩ := by
  unfold resolve lodOf alignStart
  norm_num [TILE_WIDTH, TILE_HEIGHT, LOD_PIXEL_THRESHOLD, MAP_WIDTH, MAP_HEIGHT,
    Int.tdiv]

/-- Witness for C10: offset (0, −8), zoom 1, screen 800×600; the loop
visits x = 5, y = 3 and the flat index 3·1000 + 5 is in bounds. -/
theorem draw_loop_in_bounds_witness :
    (MIN_ZOOM ≤ (1 : ℚ) ∧ (1 : ℚ) ≤ MAX_ZOOM) ∧
    (5 : ℤ) ∈ drawXs (resolve 0 (-8) 1 800 600) ∧
    (3 : ℤ) ∈ drawYs (resolve 0 (-8) 1 800 600) ∧
    ((0 ≤ (5 : ℤ) ∧ (5 : ℤ) < MAP_WIDTH ∧ 0 ≤ (3 : ℤ) ∧ (3 : ℤ) < MAP_HEIGHT) ∧
      0 ≤ (3 : ℤ) * MAP_WIDTH + 5 ∧
      (3 : ℤ) * MAP_WIDTH + 5 < MAP_WIDTH * MAP_HEIGHT) := by
  have hm : (5 : ℤ) ∈ drawXs (resolve 0 (-8) 1 800 600) := by
    rw [resolve_witness_eval]; decide
  have hm2 : (3 : ℤ) ∈ drawYs (resolve 0 (-8) 1 800 600) := by
    rw [resolve_witness_eval]; decide
  exact ⟨⟨by norm_num [MIN_ZOOM], by norm_num [MAX_ZOOM]⟩, hm, hm2,
    draw_loop_in_bounds 0 (-8) 1 800 600
      (by norm_num [MIN_ZOOM]) (by norm_num [MAX_ZOOM]) 5 hm 3 hm2⟩

end SDLGLTiles
